import Mathlib

/-!
# Formal model of `generate_abaqus_input` (src/main.py)

The generator maps cylindrical-vessel parameters to an Abaqus input text,
its UTF-8 byte encoding, and the list of generated node coordinates.

Modelling conventions:
* Python floats are modelled as exact rationals (`ℚ`); the decimal literals
  appearing in the source (`3.1416`, `2`, `360.0`, …) are taken at their
  exact decimal value.
* NumPy's degree-based trigonometry `np.cos ∘ np.radians` and
  `np.sin ∘ np.radians` is transcendental, so it is abstracted as a pair of
  oracle functions `cosdeg sindeg : ℚ → ℚ` supplied as parameters; every
  structural property below holds for an arbitrary oracle.
* Fallible steps (float division by zero at `element_size = 0`, `dict`
  lookups, `% num_circumferential_elements`) are modelled in `Option`:
  `none` corresponds to a raised Python exception.
* `f"{v:.3f}"` and `f"{v}"` formatting of floats is modelled on exact
  rationals (`fmt3`, `pyFloatRepr`): decimal rounding half-to-even for
  `.3f`, and shortest exact decimal expansion for `repr`.
-/

namespace FEA

/-- Truncation toward zero: the semantics of Python's `int()` on a float. -/
def pyint (q : ℚ) : ℤ := if 0 ≤ q then ⌊q⌋ else -⌊-q⌋

/-- The decimal digit character for `d % 10`. -/
def digitChar (d : ℕ) : Char :=
  match d % 10 with
  | 0 => '0'
  | 1 => '1'
  | 2 => '2'
  | 3 => '3'
  | 4 => '4'
  | 5 => '5'
  | 6 => '6'
  | 7 => '7'
  | 8 => '8'
  | _ => '9'

/-- Fuel-driven most-significant-first decimal digit accumulator. -/
def natDigitsGo : ℕ → ℕ → List Char → List Char
  | 0, _, acc => acc
  | fuel + 1, n, acc =>
    if n < 10 then digitChar n :: acc
    else natDigitsGo fuel (n / 10) (digitChar n :: acc)

/-- Decimal rendering of a natural number (Python `str` on a nonnegative int). -/
def natToString (n : ℕ) : String := String.mk (natDigitsGo (n + 1) n [])

/-- Decimal rendering of an integer (Python `str` on an int). -/
def intToString (i : ℤ) : String :=
  if i < 0 then "-" ++ natToString i.natAbs else natToString i.natAbs

/-- `m` rendered as exactly `k` decimal digits, zero-padded on the left. -/
def paddedDigits (k m : ℕ) : List Char :=
  (List.range k).map fun t => digitChar (m / 10 ^ (k - 1 - t))

/-- Round to the nearest integer, ties to the even integer
(the rounding used by Python's fixed-point float formatting). -/
def roundHalfEven (q : ℚ) : ℤ :=
  if Int.fract q < 1 / 2 then ⌊q⌋
  else if 1 / 2 < Int.fract q then ⌊q⌋ + 1
  else if 2 ∣ ⌊q⌋ then ⌊q⌋ else ⌊q⌋ + 1

/-- Model of Python `f"{v:.3f}"` on the exact value of `v`. -/
def fmt3 (q : ℚ) : String :=
  let n := roundHalfEven (q * 1000)
  let sign := if q < 0 then "-" else ""
  let a := n.natAbs
  sign ++ natToString (a / 1000) ++ "." ++ String.mk (paddedDigits 3 (a % 1000))

/-- Number of decimal fraction digits of `q` (fuel-bounded search). -/
def decExp : ℕ → ℚ → ℕ
  | 0, _ => 0
  | fuel + 1, q => if q.den = 1 then 0 else decExp fuel (q * 10) + 1

/-- Model of Python `f"{v}"` (i.e. `repr`) on a float whose shortest decimal
form is its exact value: the exact decimal expansion, with `.0` appended to
integral values, as Python prints floats. -/
def pyFloatRepr (q : ℚ) : String :=
  let k := decExp 60 q
  let m := q * 10 ^ k
  if m.den = 1 then
    let sign := if q < 0 then "-" else ""
    let a := m.num.natAbs
    if k = 0 then sign ++ natToString a ++ ".0"
    else sign ++ natToString (a / 10 ^ k) ++ "." ++ String.mk (paddedDigits k (a % 10 ^ k))
  else intToString q.num ++ "/" ++ natToString q.den

/-- A generated node: sequential 1-based id, grid position `(ring, circ)`
(= the key of the Python `nodes` dict) and its 3D coordinates. -/
structure Node where
  id : ℕ
  ring : ℕ
  circ : ℕ
  x : ℚ
  y : ℚ
  z : ℚ
deriving DecidableEq

/-- A generated S4 shell element: sequential 1-based id and its four node ids. -/
structure Elem where
  id : ℕ
  n1 : ℕ
  n2 : ℕ
  n3 : ℕ
  n4 : ℕ
deriving DecidableEq

/-- Row-major traversal order of the `(i, j)` grid: the iteration order of the
two nested `for` loops. -/
def gridPairs (r c : ℕ) : List (ℕ × ℕ) :=
  (List.range r).flatMap fun i => (List.range c).map fun j => (i, j)

/-- One node of the node pass: position `(i, j)` visited as the `k`-th
iteration, so `node_id = k + 1`; `θ = (j / c) · 360`,
`x = radius·cos θ`, `y = radius·sin θ`, `z = i · element_size`. -/
def mkNode (cosdeg sindeg : ℚ → ℚ) (radius element_size : ℚ) (c : ℕ)
    (k : ℕ) (ij : ℕ × ℕ) : Node :=
  let theta : ℚ := ((ij.2 : ℚ) / (c : ℚ)) * 360
  { id := k + 1, ring := ij.1, circ := ij.2,
    x := radius * cosdeg theta, y := radius * sindeg theta,
    z := (ij.1 : ℚ) * element_size }

/-- The node pass: all `(i, j)` with `i < r`, `j < c` in loop order, with the
sequential node counter threaded through `List.enum`. -/
def nodeList (cosdeg sindeg : ℚ → ℚ) (radius element_size : ℚ) (r c : ℕ) :
    List Node :=
  (gridPairs r c).enum.map fun p => mkNode cosdeg sindeg radius element_size c p.1 p.2

/-- Lookup `nodes[(i, j)]` in the generated node list (the dict has one entry
per visited `(i, j)`); `none` models a Python `KeyError`. -/
def dictGet (ns : List Node) (i j : ℕ) : Option ℕ :=
  (ns.find? fun n => n.ring == i && n.circ == j).map Node.id

/-- Option-valued map over a list, failing as soon as one element fails. -/
def optionMapList {α β : Type} (f : α → Option β) : List α → Option (List β)
  | [] => some []
  | a :: l => (f a).bind fun b => (optionMapList f l).map fun bs => b :: bs

/-- One element of the element pass at grid cell `(i, j)`, visited as the
`k`-th iteration so `element_id = k + 1`; `none` models `% 0` or a failed
dict lookup. -/
def mkElem (ns : List Node) (c : ℕ) (k : ℕ) (ij : ℕ × ℕ) : Option Elem :=
  if c = 0 then none
  else
    (dictGet ns ij.1 ij.2).bind fun a =>
    (dictGet ns ij.1 ((ij.2 + 1) % c)).bind fun b =>
    (dictGet ns (ij.1 + 1) ((ij.2 + 1) % c)).bind fun d =>
    (dictGet ns (ij.1 + 1) ij.2).map fun e =>
    { id := k + 1, n1 := a, n2 := b, n3 := d, n4 := e }

/-- The element pass over rows `i < nv` and columns `j < c`. -/
def elemList (ns : List Node) (nv c : ℕ) : Option (List Elem) :=
  optionMapList (fun p => mkElem ns c p.1 p.2) (gridPairs nv c).enum

/-- The `*Node` block line for one node. -/
def nodeLine (n : Node) : String :=
  natToString n.id ++ ", " ++ fmt3 n.x ++ ", " ++ fmt3 n.y ++ ", " ++ fmt3 n.z

/-- The `*Element` block line for one element. -/
def elemLine (e : Elem) : String :=
  natToString e.id ++ ", " ++ natToString e.n1 ++ ", " ++ natToString e.n2 ++
    ", " ++ natToString e.n3 ++ ", " ++ natToString e.n4

/-- The fixed lines written before the node block. -/
def headerLines : List String :=
  ["** Abaqus Input File for Shell Model of a Vessel",
   "*Heading",
   "Pressure Vessel Model",
   "",
   "*Part, name=Vessel",
   "*Node"]

/-- The `*Elastic` data line: caller-supplied modulus, fixed Poisson 0.3. -/
def materialLine (youngs_modulus : ℚ) : String := pyFloatRepr youngs_modulus ++ ", 0.3"

/-- The `*Shell Section` line with caller-supplied thickness. -/
def sectionLine (thickness : ℚ) : String :=
  "*Shell Section, elset=ALL_ELEMENTS, material=Steel, thickness=" ++ pyFloatRepr thickness

/-- The fixed lines written after the element block. -/
def tailLines (thickness youngs_modulus : ℚ) : List String :=
  ["*End Part",
   "",
   "*Material, name=Steel",
   "*Elastic",
   materialLine youngs_modulus,
   "",
   sectionLine thickness,
   "*Assembly, name=Assembly",
   "*Instance, name=Vessel-1, part=Vessel",
   "*End Instance",
   "*End Assembly",
   "",
   "*Step, name=StaticStep, nlgeom=YES",
   "*Static",
   "1.0, 1.0, 1e-05, 1.0",
   "",
   "*End Step"]

/-- Concatenate lines, terminating each with a newline (every `write` in the
source ends in `\n`; a `\n\n` write contributes a line plus an empty line). -/
def joinLines : List String → String
  | [] => ""
  | l :: ls => l ++ "\n" ++ joinLines ls

/-- The triple returned by `generate_abaqus_input`. -/
structure GenOut where
  inp_content : String
  byte_data : List UInt8
  node_coordinates : List (ℚ × ℚ × ℚ)
deriving DecidableEq

/-- `int((3.1416 * diameter) / element_size)` — the circumferential count. -/
def numCirc (diameter element_size : ℚ) : ℤ :=
  pyint ((3.1416 : ℚ) * diameter / element_size)

/-- `int(height / element_size)` — the vertical count. -/
def numVert (height element_size : ℚ) : ℤ :=
  pyint (height / element_size)

/-- Columns traversed by both passes: `range(num_circumferential_elements)`
(a negative count yields an empty Python `range`). -/
def circCount (diameter element_size : ℚ) : ℕ := (numCirc diameter element_size).toNat

/-- Rows traversed by the node pass: `range(num_vertical_elements + 1)`. -/
def ringCount (height element_size : ℚ) : ℕ := (numVert height element_size + 1).toNat

/-- Rows traversed by the element pass: `range(num_vertical_elements)`. -/
def vertCount (height element_size : ℚ) : ℕ := (numVert height element_size).toNat

/-- The full generator: node pass, element pass, serialization in fixed block
order, UTF-8 encoding of the text, and the coordinate list in node-id order.
`none` models a raised Python exception (division by zero at
`element_size = 0`, `KeyError`, or `% 0`). -/
def generate_abaqus_input (cosdeg sindeg : ℚ → ℚ)
    (diameter thickness height youngs_modulus element_size : ℚ) : Option GenOut :=
  if element_size = 0 then none
  else
    let radius := diameter / 2
    let nc := circCount diameter element_size
    let ns := nodeList cosdeg sindeg radius element_size (ringCount height element_size) nc
    (elemList ns (vertCount height element_size) nc).map fun es =>
      let text := joinLines (headerLines ++ ns.map nodeLine ++
        ["*Element, type=S4"] ++ es.map elemLine ++ tailLines thickness youngs_modulus)
      { inp_content := text,
        byte_data := text.toUTF8.data.toList,
        node_coordinates := ns.map fun n => (n.x, n.y, n.z) }

/-- Modelled from the spec (§3): the circumferential count the spec
prescribes, `⌊π · diameter / elementSize⌋` with the exact constant `π`;
to be compared with `numCirc`, which the source computes with the literal
`3.1416`. -/
noncomputable def circumferentialCountSpec (diameter element_size : ℝ) : ℤ :=
  ⌊Real.pi * diameter / element_size⌋

/-- The node pass of one generation, with the arguments `generate_abaqus_input`
passes to it. -/
def nodesOf (cosdeg sindeg : ℚ → ℚ) (diameter height element_size : ℚ) : List Node :=
  nodeList cosdeg sindeg (diameter / 2) element_size
    (ringCount height element_size) (circCount diameter element_size)

/-- Closed form of the element the element pass emits at grid cell `(i, j)`
as iteration `k`, in terms of the node-id layout `id (i, j) = i·c + j + 1`. -/
def closedElem (c k i j : ℕ) : Elem :=
  { id := k + 1,
    n1 := i * c + j + 1,
    n2 := i * c + (j + 1) % c + 1,
    n3 := (i + 1) * c + (j + 1) % c + 1,
    n4 := (i + 1) * c + j + 1 }

/-- Closed form of the whole element pass. -/
def elemsClosed (nv c : ℕ) : List Elem :=
  (gridPairs nv c).enum.map fun p => closedElem c p.1 p.2.1 p.2.2

/-! ## Grid traversal lemmas -/

theorem gridPairs_succ (r c : ℕ) :
    gridPairs (r + 1) c = gridPairs r c ++ (List.range c).map fun j => (r, j) := by
  simp [gridPairs, List.range_succ]

theorem gridPairs_length (r c : ℕ) : (gridPairs r c).length = r * c := by
  induction r with
  | zero => simp [gridPairs]
  | succ r ih => rw [gridPairs_succ, List.length_append, ih]; simp [Nat.succ_mul]

theorem gridPairs_getElem? (r c k : ℕ) (hc : 0 < c) (hk : k < r * c) :
    (gridPairs r c)[k]? = some (k / c, k % c) := by
  induction r with
  | zero => omega
  | succ r ih =>
    have hsm : (r + 1) * c = r * c + c := Nat.succ_mul r c
    have hcomm : c * r = r * c := Nat.mul_comm c r
    rw [gridPairs_succ]
    rcases lt_or_ge k (r * c) with hlt | hge
    · rw [List.getElem?_append_left (by rw [gridPairs_length]; exact hlt)]
      exact ih hlt
    · have hklt : k - r * c < c := by omega
      rw [List.getElem?_append_right (by rw [gridPairs_length]; exact hge)]
      rw [gridPairs_length, List.getElem?_map, List.getElem?_range hklt]
      have hdiv : k / c = r := by
        obtain ⟨j, rfl⟩ : ∃ j, k = c * r + j := ⟨k - c * r, by omega⟩
        have hj : j < c := by omega
        rw [Nat.mul_add_div hc, Nat.div_eq_of_lt hj]
        omega
      have hmod : k % c = k - r * c := by
        obtain ⟨j, hkj⟩ : ∃ j, k = c * r + j := ⟨k - c * r, by omega⟩
        have hj : j < c := by omega
        subst hkj
        rw [Nat.mul_add_mod, Nat.mod_eq_of_lt hj]
        omega
      rw [hdiv, hmod]
      rfl

/-! ## Node pass lemmas -/

theorem nodeList_length (cosdeg sindeg : ℚ → ℚ) (radius element_size : ℚ) (r c : ℕ) :
    (nodeList cosdeg sindeg radius element_size r c).length = r * c := by
  simp [nodeList, List.enum_length, gridPairs_length]

theorem nodeList_getElem? (cosdeg sindeg : ℚ → ℚ) (radius element_size : ℚ)
    (r c k : ℕ) (hc : 0 < c) (hk : k < r * c) :
    (nodeList cosdeg sindeg radius element_size r c)[k]? =
      some (mkNode cosdeg sindeg radius element_size c k (k / c, k % c)) := by
  rw [nodeList, List.getElem?_map, List.getElem?_enum,
    gridPairs_getElem? r c k hc hk]
  rfl

theorem nodeList_map_id (cosdeg sindeg : ℚ → ℚ) (radius element_size : ℚ) (r c : ℕ) :
    (nodeList cosdeg sindeg radius element_size r c).map Node.id =
      (List.range (r * c)).map (· + 1) := by
  apply List.ext_getElem
  · simp [nodeList_length, gridPairs_length]
  · intro k h1 h2
    have hc1 : k < (gridPairs r c).enum.length := by
      simp only [List.length_map, nodeList_length] at h1
      simp [List.enum_length, gridPairs_length, h1]
    simp only [List.getElem_map, nodeList, List.getElem_enum, mkNode, List.getElem_range]

/-! ## Dict lookup lemmas -/

theorem find?_eq_of_mem_unique {α : Type} (p : α → Bool) (l : List α) (a : α)
    (ha : a ∈ l) (hpa : p a = true) (huniq : ∀ b ∈ l, p b = true → b = a) :
    l.find? p = some a := by
  induction l with
  | nil => cases ha
  | cons x xs ih =>
    by_cases hx : p x = true
    · have hxa : x = a := huniq x (List.mem_cons_self x xs) hx
      rw [List.find?_cons_of_pos xs hx, hxa]
    · have hax : a ∈ xs := by
        rcases List.mem_cons.mp ha with h | h
        · subst h; exact absurd hpa hx
        · exact h
      rw [List.find?_cons_of_neg xs hx]
      exact ih hax fun b hb hpb => huniq b (List.mem_cons_of_mem x hb) hpb

theorem dictGet_nodeList (cosdeg sindeg : ℚ → ℚ) (radius element_size : ℚ)
    (r c i j : ℕ) (hc : 0 < c) (hi : i < r) (hj : j < c) :
    dictGet (nodeList cosdeg sindeg radius element_size r c) i j =
      some (i * c + j + 1) := by
  have hk : i * c + j < r * c := by
    have h1 : (i + 1) * c = i * c + c := Nat.succ_mul i c
    have h2 : (i + 1) * c ≤ r * c := Nat.mul_le_mul_right c hi
    omega
  have hcomm : i * c + j = c * i + j := by ring
  have hdiv : (i * c + j) / c = i := by
    rw [hcomm, Nat.mul_add_div hc, Nat.div_eq_of_lt hj]
    omega
  have hmod : (i * c + j) % c = j := by
    rw [hcomm, Nat.mul_add_mod, Nat.mod_eq_of_lt hj]
  have hsome := nodeList_getElem? cosdeg sindeg radius element_size r c (i * c + j) hc hk
  rw [hdiv, hmod] at hsome
  have hlt : i * c + j < (nodeList cosdeg sindeg radius element_size r c).length := by
    rw [nodeList_length]; exact hk
  have hget : (nodeList cosdeg sindeg radius element_size r c).get ⟨i * c + j, hlt⟩ =
      mkNode cosdeg sindeg radius element_size c (i * c + j) (i, j) := by
    rw [List.getElem?_eq_getElem hlt] at hsome
    simpa using hsome
  have hmem : mkNode cosdeg sindeg radius element_size c (i * c + j) (i, j) ∈
      nodeList cosdeg sindeg radius element_size r c := by
    rw [← hget]; exact List.get_mem _ _ hlt
  have hpa : ((mkNode cosdeg sindeg radius element_size c (i * c + j) (i, j)).ring == i &&
      (mkNode cosdeg sindeg radius element_size c (i * c + j) (i, j)).circ == j) = true := by
    simp [mkNode]
  have huniq : ∀ b ∈ nodeList cosdeg sindeg radius element_size r c,
      (b.ring == i && b.circ == j) = true →
      b = mkNode cosdeg sindeg radius element_size c (i * c + j) (i, j) := by
    intro b hb hpb
    rcases List.mem_iff_getElem.mp hb with ⟨k, hkl, hbk⟩
    have hkrc : k < r * c := by rw [nodeList_length] at hkl; exact hkl
    have hbchar := nodeList_getElem? cosdeg sindeg radius element_size r c k hc hkrc
    rw [List.getElem?_eq_getElem hkl, hbk] at hbchar
    have hb2 : b = mkNode cosdeg sindeg radius element_size c k (k / c, k % c) :=
      Option.some_injective _ hbchar
    rw [hb2] at hpb
    simp only [mkNode, Bool.and_eq_true, beq_iff_eq] at hpb
    obtain ⟨hki, hkj⟩ := hpb
    have hkval : k = i * c + j := by
      have := Nat.div_add_mod k c
      rw [hki, hkj] at this
      have hcm : c * i = i * c := Nat.mul_comm c i
      omega
    rw [hb2, hkval, hdiv, hmod]
  rw [dictGet, find?_eq_of_mem_unique _ _ _ hmem hpa huniq]
  rfl

/-! ## Element pass lemmas -/

theorem optionMapList_eq_some {α β : Type} (f : α → Option β) (g : α → β) (l : List α)
    (h : ∀ a ∈ l, f a = some (g a)) : optionMapList f l = some (l.map g) := by
  induction l with
  | nil => rfl
  | cons a l ih =>
    show (f a).bind _ = _
    rw [h a (List.mem_cons_self a l), ih fun b hb => h b (List.mem_cons_of_mem a hb)]
    rfl

theorem gridPairs_c0 (r : ℕ) : gridPairs r 0 = [] := by
  rw [← List.length_eq_zero, gridPairs_length, Nat.mul_zero]

theorem elemList_eq_closed (cosdeg sindeg : ℚ → ℚ) (radius element_size : ℚ)
    (c nv : ℕ) (hc : 0 < c) :
    elemList (nodeList cosdeg sindeg radius element_size (nv + 1) c) nv c =
      some (elemsClosed nv c) := by
  rw [elemList, elemsClosed]
  refine optionMapList_eq_some _ _ _ ?_
  rw [List.forall_mem_enum]
  intro k hk
  have hkl : k < nv * c := by rw [gridPairs_length] at hk; exact hk
  have hgp : (gridPairs nv c)[k] = (k / c, k % c) := by
    have h1 := gridPairs_getElem? nv c k hc hkl
    rw [List.getElem?_eq_getElem hk] at h1
    exact Option.some_injective _ h1
  rw [hgp]
  have hi : k / c < nv := (Nat.div_lt_iff_lt_mul hc).mpr hkl
  have hj : k % c < c := Nat.mod_lt _ hc
  have hj1 : (k % c + 1) % c < c := Nat.mod_lt _ hc
  show mkElem _ c k (k / c, k % c) = some (closedElem c k (k / c) (k % c))
  rw [mkElem, if_neg (Nat.pos_iff_ne_zero.mp hc)]
  rw [dictGet_nodeList cosdeg sindeg radius element_size (nv + 1) c _ _ hc
    (Nat.lt_succ_of_lt hi) hj]
  rw [dictGet_nodeList cosdeg sindeg radius element_size (nv + 1) c _ _ hc
    (Nat.lt_succ_of_lt hi) hj1]
  rw [dictGet_nodeList cosdeg sindeg radius element_size (nv + 1) c _ _ hc
    (Nat.succ_lt_succ hi) hj1]
  rw [dictGet_nodeList cosdeg sindeg radius element_size (nv + 1) c _ _ hc
    (Nat.succ_lt_succ hi) hj]
  rfl

/-! ## Generator characterization -/

theorem elemsClosed_map_id (nv c : ℕ) :
    (elemsClosed nv c).map Elem.id = (List.range (nv * c)).map (· + 1) := by
  apply List.ext_getElem
  · simp [elemsClosed, List.enum_length, gridPairs_length]
  · intro k h1 h2
    simp [elemsClosed, List.getElem_enum, closedElem, List.getElem_range]

theorem ringCount_eq (height element_size : ℚ) (hv : 0 < vertCount height element_size) :
    ringCount height element_size = vertCount height element_size + 1 := by
  rw [ringCount, vertCount] at *
  omega

/-- The output text of a successful generation, in closed form. -/
def genTextOf (cosdeg sindeg : ℚ → ℚ)
    (diameter thickness height youngs_modulus element_size : ℚ) : String :=
  joinLines (headerLines ++
    (nodesOf cosdeg sindeg diameter height element_size).map nodeLine ++
    ["*Element, type=S4"] ++
    (elemsClosed (vertCount height element_size) (circCount diameter element_size)).map elemLine ++
    tailLines thickness youngs_modulus)

/-- The full output of a successful generation, in closed form. -/
def genOutOf (cosdeg sindeg : ℚ → ℚ)
    (diameter thickness height youngs_modulus element_size : ℚ) : GenOut :=
  { inp_content := genTextOf cosdeg sindeg diameter thickness height youngs_modulus element_size,
    byte_data :=
      (genTextOf cosdeg sindeg diameter thickness height youngs_modulus element_size).toUTF8.data.toList,
    node_coordinates :=
      (nodesOf cosdeg sindeg diameter height element_size).map fun n => (n.x, n.y, n.z) }

theorem elemList_success (cosdeg sindeg : ℚ → ℚ) (diameter height element_size : ℚ) :
    elemList (nodesOf cosdeg sindeg diameter height element_size)
      (vertCount height element_size) (circCount diameter element_size) =
      some (elemsClosed (vertCount height element_size) (circCount diameter element_size)) := by
  rcases Nat.eq_zero_or_pos (circCount diameter element_size) with hc0 | hc
  · rw [hc0, elemList, elemsClosed, gridPairs_c0]
    rfl
  · rcases Nat.eq_zero_or_pos (vertCount height element_size) with hv0 | hv
    · rw [hv0]
      rfl
    · rw [nodesOf, ringCount_eq _ _ hv]
      exact elemList_eq_closed cosdeg sindeg (diameter / 2) element_size _ _ hc

theorem generate_eq (cosdeg sindeg : ℚ → ℚ)
    (diameter thickness height youngs_modulus element_size : ℚ)
    (hes : element_size ≠ 0) :
    generate_abaqus_input cosdeg sindeg diameter thickness height youngs_modulus element_size =
      some (genOutOf cosdeg sindeg diameter thickness height youngs_modulus element_size) := by
  have h := elemList_success cosdeg sindeg diameter height element_size
  simp only [nodesOf] at h
  simp only [generate_abaqus_input, if_neg hes]
  rw [h, Option.map_some']
  rfl

/-! ## Concrete evaluation lemmas

`ℚ` arithmetic does not reduce in the kernel (its normalization is
well-founded recursion), so concrete values are evaluated with `norm_num`
and the remaining ℕ/`String` computation with `decide`. -/

theorem pyint_of_nonneg (q : ℚ) (h : 0 ≤ q) : pyint q = ⌊q⌋ := by rw [pyint, if_pos h]

theorem decExp_succ (fuel : ℕ) (q : ℚ) :
    decExp (fuel + 1) q = if q.den = 1 then 0 else decExp fuel (q * 10) + 1 := rfl

theorem roundHalfEven_intCast (z : ℤ) : roundHalfEven ((z : ℤ) : ℚ) = z := by
  rw [roundHalfEven, Int.fract_intCast, if_pos (by norm_num), Int.floor_intCast]

theorem fmt3_sixty : fmt3 60 = "60.000" := by
  have h1 : (60 : ℚ) * 1000 = ((60000 : ℤ) : ℚ) := by norm_num
  simp only [fmt3, h1, roundHalfEven_intCast, if_neg (by norm_num : ¬((60:ℚ) < 0))]
  decide

theorem fmt3_zero : fmt3 0 = "0.000" := by
  have h1 : (0 : ℚ) * 1000 = ((0 : ℤ) : ℚ) := by norm_num
  simp only [fmt3, h1, roundHalfEven_intCast, if_neg (by norm_num : ¬((0:ℚ) < 0))]
  decide

theorem pyFloatRepr_modulus : pyFloatRepr 29000000 = "29000000.0" := by
  have hden : (29000000 : ℚ).den = 1 := by norm_num
  have hk : decExp 60 (29000000 : ℚ) = 0 := by
    rw [show (60:ℕ) = 59 + 1 from rfl, decExp_succ, if_pos hden]
  have hm : (29000000 : ℚ) * 10 ^ (0:ℕ) = 29000000 := by norm_num
  have hnum : (29000000 : ℚ).num = 29000000 := by norm_num
  simp only [pyFloatRepr, hk, hm, if_pos hden, if_pos rfl,
    if_neg (by norm_num : ¬((29000000:ℚ) < 0)), hnum]
  decide

theorem pyFloatRepr_thickness : pyFloatRepr 1.125 = "1.125" := by
  have d0 : ¬((1.125:ℚ).den = 1) := by norm_num
  have e1 : (1.125:ℚ) * 10 = 45/4 := by norm_num
  have d1 : ¬(((45:ℚ)/4).den = 1) := by norm_num
  have e2 : ((45:ℚ)/4) * 10 = 225/2 := by norm_num
  have d2 : ¬(((225:ℚ)/2).den = 1) := by norm_num
  have e3 : ((225:ℚ)/2) * 10 = 1125 := by norm_num
  have d3 : ((1125:ℚ)).den = 1 := by norm_num
  have hk : decExp 60 (1.125 : ℚ) = 3 := by
    rw [show (60:ℕ) = 59 + 1 from rfl, decExp_succ, if_neg d0, e1,
      show (59:ℕ) = 58 + 1 from rfl, decExp_succ, if_neg d1, e2,
      show (58:ℕ) = 57 + 1 from rfl, decExp_succ, if_neg d2, e3,
      show (57:ℕ) = 56 + 1 from rfl, decExp_succ, if_pos d3]
  have hm : (1.125 : ℚ) * 10 ^ (3:ℕ) = 1125 := by norm_num
  have hnum : (1125 : ℚ).num = 1125 := by norm_num
  simp only [pyFloatRepr, hk, hm, if_pos d3, if_neg (by norm_num : ¬((3:ℕ) = 0)),
    if_neg (by norm_num : ¬((1.125:ℚ) < 0)), hnum]
  decide

theorem circCount_main : circCount 120 6 = 62 := by
  rw [circCount, numCirc, pyint_of_nonneg _ (by norm_num),
    show ⌊(3.1416 : ℚ) * 120 / 6⌋ = 62 by norm_num]
  rfl

theorem vertCount_main : vertCount 270 6 = 45 := by
  rw [vertCount, numVert, pyint_of_nonneg _ (by norm_num),
    show ⌊(270 : ℚ) / 6⌋ = 45 by norm_num]
  rfl

theorem ringCount_main : ringCount 270 6 = 46 := by
  rw [ringCount, numVert, pyint_of_nonneg _ (by norm_num),
    show ⌊(270 : ℚ) / 6⌋ = 45 by norm_num]
  rfl

theorem circCount_degenerate : circCount 120 1000 = 0 := by
  rw [circCount, numCirc, pyint_of_nonneg _ (by norm_num),
    show ⌊(3.1416 : ℚ) * 120 / 1000⌋ = 0 by norm_num]
  rfl

theorem vertCount_degenerate : vertCount 270 1000 = 0 := by
  rw [vertCount, numVert, pyint_of_nonneg _ (by norm_num),
    show ⌊(270 : ℚ) / 1000⌋ = 0 by norm_num]
  rfl

theorem ringCount_degenerate : ringCount 270 1000 = 1 := by
  rw [ringCount, numVert, pyint_of_nonneg _ (by norm_num),
    show ⌊(270 : ℚ) / 1000⌋ = 0 by norm_num]
  rfl

/-! ## Claim theorems -/

theorem joinLines_cons (l : String) (ls : List String) :
    joinLines (l :: ls) = l ++ "\n" ++ joinLines ls := rfl

theorem joinLines_ne_empty (l : String) (ls : List String) : joinLines (l :: ls) ≠ "" := by
  rw [joinLines_cons]
  intro h
  have hd : (l ++ "\n" ++ joinLines ls).data = ("" : String).data := by rw [h]
  simp [String.data_append] at hd

/-- C1 (code evaluated at the failing input): for diameter 120, height 270,
element size 1000 the derived counts are degenerate
(`circumferentialCount = 0 < 3`, `verticalCount = 0 < 1`), yet
`generate_abaqus_input` raises nothing and returns a document with nonempty
text and an empty coordinate list — it does not reject with InvalidGeometry. -/
theorem degenerate_counts_still_generate :
    circCount 120 1000 = 0 ∧ vertCount 270 1000 = 0 ∧
      ∃ out, generate_abaqus_input (fun _ => 1) (fun _ => 0) 120 1.125 270 29000000 1000 =
          some out ∧
        out.inp_content ≠ "" ∧ out.node_coordinates = [] := by
  refine ⟨circCount_degenerate, vertCount_degenerate, _,
    generate_eq _ _ _ _ _ _ _ (by norm_num), ?_, ?_⟩
  · show genTextOf _ _ _ _ _ _ _ ≠ ""
    rw [genTextOf]
    exact joinLines_ne_empty _ _
  · show (nodesOf _ _ _ _ _).map _ = []
    rw [nodesOf, circCount_degenerate, ringCount_degenerate]
    rfl

/-- C2 counterexample: at diameter 1000000, element size 1 the source count
`int(3.1416 * d / s)` is 3141600, while the spec's
`⌊π · d / s⌋` is 3141592; the two definitions differ, so the claim that the
code uses the exact constant π is false. -/
theorem numCirc_ne_pi_floor :
    numCirc 1000000 1 = 3141600 ∧ circumferentialCountSpec 1000000 1 = 3141592 ∧
      numCirc 1000000 1 ≠ circumferentialCountSpec 1000000 1 := by
  have h1 : numCirc 1000000 1 = 3141600 := by
    have hval : ((3.1416 : ℚ) * 1000000 / 1) = 3141600 := by norm_num
    rw [numCirc, pyint, hval]
    norm_num
  have h2 : circumferentialCountSpec 1000000 1 = 3141592 := by
    have hp1 : (3.141592 : ℝ) < Real.pi := Real.pi_gt_d6
    have hp2 : Real.pi < 3.141593 := Real.pi_lt_d6
    rw [circumferentialCountSpec, div_one, Int.floor_eq_iff]
    constructor
    · push_cast
      nlinarith
    · push_cast
      nlinarith
  refine ⟨h1, h2, ?_⟩
  rw [h1, h2]
  decide

/-- C2 amended: the mesh resolution used by the generator is
`circumferentialCount = ⌊3.1416 · diameter / elementSize⌋` (the literal
constant 3.1416 = 3927/1250, not the exact π) and
`verticalCount = ⌊height / elementSize⌋`, both by truncating (floor)
division. -/
theorem counts_are_floor (diameter height element_size : ℚ)
    (hd : 0 < diameter) (hh : 0 < height) (hes : 0 < element_size) :
    numCirc diameter element_size = ⌊(3927 / 1250 : ℚ) * diameter / element_size⌋ ∧
      numVert height element_size = ⌊height / element_size⌋ := by
  have h1 : (3.1416 : ℚ) = 3927 / 1250 := by norm_num
  constructor
  · rw [numCirc, pyint, if_pos (by positivity), h1]
  · rw [numVert, pyint, if_pos (by positivity)]

theorem counts_are_floor_witness :
    (0 : ℚ) < 120 ∧ (0 : ℚ) < 270 ∧ (0 : ℚ) < 6 ∧
      numCirc 120 6 = ⌊(3927 / 1250 : ℚ) * 120 / 6⌋ ∧
      numVert 270 6 = ⌊(270 : ℚ) / 6⌋ :=
  ⟨by norm_num, by norm_num, by norm_num,
    counts_are_floor 120 270 6 (by norm_num) (by norm_num) (by norm_num)⟩

/-- C6: the generator is deterministic and side-effect free — it is a pure
function of its arguments, so two calls on identical inputs return identical
text, bytes and coordinates. -/
theorem generate_deterministic (cosdeg sindeg : ℚ → ℚ)
    (d1 t1 h1 E1 es1 d2 t2 h2 E2 es2 : ℚ)
    (hd : d1 = d2) (ht : t1 = t2) (hh : h1 = h2) (hE : E1 = E2) (hes : es1 = es2) :
    generate_abaqus_input cosdeg sindeg d1 t1 h1 E1 es1 =
      generate_abaqus_input cosdeg sindeg d2 t2 h2 E2 es2 := by
  rw [hd, ht, hh, hE, hes]

theorem generate_deterministic_witness :
    generate_abaqus_input (fun _ => 1) (fun _ => 0) 120 1.125 270 29000000 6 =
      generate_abaqus_input (fun _ => 1) (fun _ => 0) 120 1.125 270 29000000 6 :=
  generate_deterministic (fun _ => 1) (fun _ => 0) 120 1.125 270 29000000 6
    120 1.125 270 29000000 6 rfl rfl rfl rfl rfl

/-- C10: for every input with a nonzero element size the generator terminates
and returns normally (`some`), even when the derived counts are degenerate;
the returned text is always the fixed document skeleton with (possibly empty)
node and element line blocks spliced in, and no error is raised. -/
theorem generate_total_skeleton (cosdeg sindeg : ℚ → ℚ)
    (diameter thickness height youngs_modulus element_size : ℚ)
    (hes : 0 < element_size) :
    ∃ out, generate_abaqus_input cosdeg sindeg diameter thickness height youngs_modulus
        element_size = some out ∧
      ∃ nodeLs elemLs,
        out.inp_content = joinLines (headerLines ++ nodeLs ++ ["*Element, type=S4"] ++
          elemLs ++ tailLines thickness youngs_modulus) :=
  ⟨_, generate_eq _ _ _ _ _ _ _ (ne_of_gt hes),
    (nodesOf cosdeg sindeg diameter height element_size).map nodeLine,
    (elemsClosed (vertCount height element_size) (circCount diameter element_size)).map elemLine,
    rfl⟩

theorem generate_total_skeleton_witness :
    (0 : ℚ) < 1000 ∧
      ∃ out, generate_abaqus_input (fun _ => 1) (fun _ => 0) 120 1.125 270 29000000 1000 =
          some out ∧
        ∃ nodeLs elemLs,
          out.inp_content = joinLines (headerLines ++ nodeLs ++ ["*Element, type=S4"] ++
            elemLs ++ tailLines 1.125 29000000) :=
  ⟨by norm_num,
    generate_total_skeleton (fun _ => 1) (fun _ => 0) 120 1.125 270 29000000 1000 (by norm_num)⟩

/-- C3: for every valid input (`circumferentialCount ≥ 3`,
`verticalCount ≥ 1`) the generator succeeds, produces exactly
`(verticalCount + 1) · circumferentialCount` nodes (and coordinates) and
`verticalCount · circumferentialCount` elements, and assigns node ids and
element ids consecutively starting at 1. -/
theorem node_elem_counts (cosdeg sindeg : ℚ → ℚ)
    (diameter thickness height youngs_modulus element_size : ℚ)
    (h3 : 3 ≤ circCount diameter element_size)
    (h1 : 1 ≤ vertCount height element_size) :
    ∃ out elist,
      generate_abaqus_input cosdeg sindeg diameter thickness height youngs_modulus
          element_size = some out ∧
      elemList (nodesOf cosdeg sindeg diameter height element_size)
        (vertCount height element_size) (circCount diameter element_size) = some elist ∧
      (nodesOf cosdeg sindeg diameter height element_size).length =
        (vertCount height element_size + 1) * circCount diameter element_size ∧
      out.node_coordinates.length =
        (vertCount height element_size + 1) * circCount diameter element_size ∧
      elist.length = vertCount height element_size * circCount diameter element_size ∧
      (nodesOf cosdeg sindeg diameter height element_size).map Node.id =
        (List.range ((vertCount height element_size + 1) *
          circCount diameter element_size)).map (· + 1) ∧
      elist.map Elem.id =
        (List.range (vertCount height element_size *
          circCount diameter element_size)).map (· + 1) := by
  have hes : element_size ≠ 0 := by
    intro h0
    rw [h0] at h1
    simp [vertCount, numVert, pyint] at h1
  have hring : ringCount height element_size = vertCount height element_size + 1 :=
    ringCount_eq height element_size (by omega)
  refine ⟨_, _, generate_eq _ _ _ _ _ _ _ hes, elemList_success _ _ _ _ _,
    ?_, ?_, ?_, ?_, ?_⟩
  · rw [nodesOf, nodeList_length, hring]
  · show ((nodesOf _ _ _ _ _).map _).length = _
    rw [List.length_map, nodesOf, nodeList_length, hring]
  · simp [elemsClosed, List.enum_length, gridPairs_length]
  · rw [nodesOf, nodeList_map_id, hring]
  · exact elemsClosed_map_id _ _

theorem node_elem_counts_witness :
    3 ≤ circCount 120 6 ∧ 1 ≤ vertCount 270 6 ∧
      ∃ out elist,
        generate_abaqus_input (fun _ => 1) (fun _ => 0) 120 1.125 270 29000000 6 =
            some out ∧
        elemList (nodesOf (fun _ => 1) (fun _ => 0) 120 270 6)
          (vertCount 270 6) (circCount 120 6) = some elist ∧
        (nodesOf (fun _ => 1) (fun _ => 0) 120 270 6).length =
          (vertCount 270 6 + 1) * circCount 120 6 ∧
        out.node_coordinates.length = (vertCount 270 6 + 1) * circCount 120 6 ∧
        elist.length = vertCount 270 6 * circCount 120 6 ∧
        (nodesOf (fun _ => 1) (fun _ => 0) 120 270 6).map Node.id =
          (List.range ((vertCount 270 6 + 1) * circCount 120 6)).map (· + 1) ∧
        elist.map Elem.id =
          (List.range (vertCount 270 6 * circCount 120 6)).map (· + 1) :=
  ⟨by rw [circCount_main]; omega, by rw [vertCount_main]; omega,
    node_elem_counts (fun _ => 1) (fun _ => 0) 120 1.125 270 29000000 6
      (by rw [circCount_main]; omega) (by rw [vertCount_main]; omega)⟩

/-! ## Membership characterizations for C4/C5 -/

theorem encode_lt (i j r c : ℕ) (hi : i < r) (hj : j < c) : i * c + j < r * c := by
  have h1 : (i + 1) * c = i * c + c := Nat.succ_mul i c
  have h2 : (i + 1) * c ≤ r * c := Nat.mul_le_mul_right c hi
  omega

theorem encode_div (i j c : ℕ) (hc : 0 < c) (hj : j < c) : (i * c + j) / c = i := by
  rw [show i * c + j = c * i + j by ring, Nat.mul_add_div hc, Nat.div_eq_of_lt hj]
  omega

theorem encode_mod (i j c : ℕ) (hj : j < c) : (i * c + j) % c = j := by
  rw [show i * c + j = c * i + j by ring, Nat.mul_add_mod, Nat.mod_eq_of_lt hj]

theorem encode_inj (c i iq j jq : ℕ) (hc : 0 < c) (hj : j < c) (hjq : jq < c)
    (h : i * c + j = iq * c + jq) : i = iq ∧ j = jq := by
  have h1 : (i * c + j) / c = i := encode_div i j c hc hj
  have h2 : (iq * c + jq) / c = iq := encode_div iq jq c hc hjq
  have h3 : (i * c + j) % c = j := encode_mod i j c hj
  have h4 : (iq * c + jq) % c = jq := encode_mod iq jq c hjq
  constructor
  · rw [← h1, ← h2, h]
  · rw [← h3, ← h4, h]

theorem elemsClosed_getElem? (nv c k : ℕ) (hc : 0 < c) (hk : k < nv * c) :
    (elemsClosed nv c)[k]? = some (closedElem c k (k / c) (k % c)) := by
  rw [elemsClosed, List.getElem?_map, List.getElem?_enum, gridPairs_getElem? nv c k hc hk]
  rfl

theorem elemsClosed_mem (nv c : ℕ) (hc : 0 < c) (e : Elem) :
    e ∈ elemsClosed nv c ↔ ∃ i j, i < nv ∧ j < c ∧ e = closedElem c (i * c + j) i j := by
  constructor
  · intro he
    rcases List.mem_iff_getElem.mp he with ⟨k, hkl, hek⟩
    have hkn : k < nv * c := by
      rw [elemsClosed, List.length_map, List.enum_length, gridPairs_length] at hkl
      exact hkl
    have := elemsClosed_getElem? nv c k hc hkn
    rw [List.getElem?_eq_getElem hkl, hek] at this
    have he2 := Option.some_injective _ this
    refine ⟨k / c, k % c, (Nat.div_lt_iff_lt_mul hc).mpr hkn, Nat.mod_lt _ hc, ?_⟩
    rw [he2]
    congr 1
    have := Nat.div_add_mod k c
    have hcm : c * (k / c) = (k / c) * c := Nat.mul_comm c (k / c)
    omega
  · rintro ⟨i, j, hi, hj, rfl⟩
    have hk : i * c + j < nv * c := encode_lt i j nv c hi hj
    have hkl : i * c + j < (elemsClosed nv c).length := by
      rw [elemsClosed, List.length_map, List.enum_length, gridPairs_length]
      exact hk
    have := elemsClosed_getElem? nv c (i * c + j) hc hk
    rw [List.getElem?_eq_getElem hkl, encode_div i j c hc hj, encode_mod i j c hj] at this
    rw [← Option.some_injective _ this]
    exact List.getElem_mem hkl

theorem nodeList_mem (cosdeg sindeg : ℚ → ℚ) (radius element_size : ℚ) (r c : ℕ)
    (hc : 0 < c) (n : Node) :
    n ∈ nodeList cosdeg sindeg radius element_size r c ↔
      ∃ i j, i < r ∧ j < c ∧ n = mkNode cosdeg sindeg radius element_size c (i * c + j) (i, j) := by
  constructor
  · intro hn
    rcases List.mem_iff_getElem.mp hn with ⟨k, hkl, hnk⟩
    have hkn : k < r * c := by rw [nodeList_length] at hkl; exact hkl
    have := nodeList_getElem? cosdeg sindeg radius element_size r c k hc hkn
    rw [List.getElem?_eq_getElem hkl, hnk] at this
    have hn2 := Option.some_injective _ this
    refine ⟨k / c, k % c, (Nat.div_lt_iff_lt_mul hc).mpr hkn, Nat.mod_lt _ hc, ?_⟩
    rw [hn2]
    congr 1
    have := Nat.div_add_mod k c
    have hcm : c * (k / c) = (k / c) * c := Nat.mul_comm c (k / c)
    omega
  · rintro ⟨i, j, hi, hj, rfl⟩
    have hk : i * c + j < r * c := encode_lt i j r c hi hj
    have hkl : i * c + j < (nodeList cosdeg sindeg radius element_size r c).length := by
      rw [nodeList_length]; exact hk
    have := nodeList_getElem? cosdeg sindeg radius element_size r c (i * c + j) hc hk
    rw [List.getElem?_eq_getElem hkl, encode_div i j c hc hj, encode_mod i j c hj] at this
    rw [← Option.some_injective _ this]
    exact List.getElem_mem hkl

theorem succ_mod_ne (c j : ℕ) (hc : 2 ≤ c) (hj : j < c) : (j + 1) % c ≠ j := by
  rcases Nat.lt_or_ge (j + 1) c with hlt | hge
  · rw [Nat.mod_eq_of_lt hlt]
    omega
  · have hjc : j + 1 = c := by omega
    rw [hjc, Nat.mod_self]
    omega

/-- C4: for every valid input, every generated element references exactly 4
pairwise-distinct node ids, each resolving to a node generated by the same
call, and the set of node ids referenced across all elements covers the full
node id set. -/
theorem element_refs_valid (cosdeg sindeg : ℚ → ℚ)
    (diameter height element_size : ℚ)
    (h3 : 3 ≤ circCount diameter element_size)
    (h1 : 1 ≤ vertCount height element_size) :
    ∃ elist,
      elemList (nodesOf cosdeg sindeg diameter height element_size)
        (vertCount height element_size) (circCount diameter element_size) = some elist ∧
      (∀ e ∈ elist,
        ([e.n1, e.n2, e.n3, e.n4] : List ℕ).Nodup ∧
        ∀ x ∈ ([e.n1, e.n2, e.n3, e.n4] : List ℕ),
          ∃ n ∈ nodesOf cosdeg sindeg diameter height element_size, n.id = x) ∧
      ∀ n ∈ nodesOf cosdeg sindeg diameter height element_size,
        ∃ e ∈ elist, n.id ∈ ([e.n1, e.n2, e.n3, e.n4] : List ℕ) := by
  set c := circCount diameter element_size with hc_def
  set nv := vertCount height element_size with hnv_def
  have hc : 0 < c := by omega
  have hc2 : 2 ≤ c := by omega
  have hring : ringCount height element_size = nv + 1 := ringCount_eq _ _ (by omega)
  have hne : ∀ b bq jj jjq : ℕ, jj < c → jjq < c → (b ≠ bq ∨ jj ≠ jjq) →
      b * c + jj + 1 ≠ bq * c + jjq + 1 := by
    intro b bq jj jjq hjj hjjq hor heq
    have heq2 : b * c + jj = bq * c + jjq := by omega
    obtain ⟨hb, hj2⟩ := encode_inj c b bq jj jjq hc hjj hjjq heq2
    tauto
  refine ⟨_, elemList_success _ _ _ _ _, ?_, ?_⟩
  · intro e he
    rw [elemsClosed_mem _ _ hc] at he
    obtain ⟨i, j, hi, hj, rfl⟩ := he
    have hjq : (j + 1) % c < c := Nat.mod_lt _ hc
    have hjne : (j + 1) % c ≠ j := succ_mod_ne c j hc2 hj
    constructor
    · simp only [closedElem, List.nodup_cons, List.mem_cons, List.mem_singleton,
        List.not_mem_nil, or_false, List.nodup_nil, and_true, not_or]
      refine ⟨⟨?_, ?_, ?_⟩, ⟨?_, ?_⟩, ?_⟩
      · exact hne i i j ((j + 1) % c) hj hjq (Or.inr (Ne.symm hjne))
      · exact hne i (i + 1) j ((j + 1) % c) hj hjq (Or.inl (by omega))
      · exact hne i (i + 1) j j hj hj (Or.inl (by omega))
      · exact hne i (i + 1) ((j + 1) % c) ((j + 1) % c) hjq hjq (Or.inl (by omega))
      · exact hne i (i + 1) ((j + 1) % c) j hjq hj (Or.inl (by omega))
      · exact ⟨hne (i + 1) (i + 1) ((j + 1) % c) j hjq hj (Or.inr hjne), not_false⟩
    · intro x hx
      simp only [closedElem, List.mem_cons, List.mem_singleton, List.not_mem_nil,
        or_false] at hx
      have hmk : ∀ b jj : ℕ, b < nv + 1 → jj < c →
          ∃ n ∈ nodesOf cosdeg sindeg diameter height element_size,
            n.id = b * c + jj + 1 := by
        intro b jj hb hjj
        refine ⟨mkNode cosdeg sindeg (diameter / 2) element_size c (b * c + jj) (b, jj),
          ?_, rfl⟩
        rw [nodesOf, nodeList_mem _ _ _ _ _ _ hc]
        exact ⟨b, jj, by rw [hring]; omega, hjj, rfl⟩
      rcases hx with rfl | rfl | rfl | rfl
      · exact hmk i j (by omega) hj
      · exact hmk i ((j + 1) % c) (by omega) hjq
      · exact hmk (i + 1) ((j + 1) % c) (by omega) hjq
      · exact hmk (i + 1) j (by omega) hj
  · intro n hn
    rw [nodesOf, nodeList_mem _ _ _ _ _ _ hc] at hn
    obtain ⟨i, j, hi, hj, rfl⟩ := hn
    rw [hring] at hi
    rcases Nat.lt_or_ge i nv with hlt | hge
    · refine ⟨_, (elemsClosed_mem _ _ hc _).mpr ⟨i, j, hlt, hj, rfl⟩, ?_⟩
      simp [closedElem, mkNode]
    · have hieq : i = nv := by omega
      have hnn : nv - 1 + 1 = nv := by omega
      refine ⟨_, (elemsClosed_mem _ _ hc _).mpr ⟨nv - 1, j, by omega, hj, rfl⟩, ?_⟩
      simp only [closedElem, mkNode, List.mem_cons, List.mem_singleton]
      right; right; right
      rw [hnn, hieq]
      exact Or.inl rfl

theorem element_refs_valid_witness :
    3 ≤ circCount 120 6 ∧ 1 ≤ vertCount 270 6 ∧
      ∃ elist,
        elemList (nodesOf (fun _ => 1) (fun _ => 0) 120 270 6)
          (vertCount 270 6) (circCount 120 6) = some elist ∧
        (∀ e ∈ elist,
          ([e.n1, e.n2, e.n3, e.n4] : List ℕ).Nodup ∧
          ∀ x ∈ ([e.n1, e.n2, e.n3, e.n4] : List ℕ),
            ∃ n ∈ nodesOf (fun _ => 1) (fun _ => 0) 120 270 6, n.id = x) ∧
        ∀ n ∈ nodesOf (fun _ => 1) (fun _ => 0) 120 270 6,
          ∃ e ∈ elist, n.id ∈ ([e.n1, e.n2, e.n3, e.n4] : List ℕ) :=
  ⟨by rw [circCount_main]; omega, by rw [vertCount_main]; omega,
    element_refs_valid (fun _ => 1) (fun _ => 0) 120 270 6
      (by rw [circCount_main]; omega) (by rw [vertCount_main]; omega)⟩

/-- C5: the mesh is seam-closed — for every ring `i < verticalCount`, the
element generated at circumferential index `circumferentialCount - 1` (list
position `i·c + (c-1)`) wraps: its second and third references are the nodes
at circumferential index 0 of rings `i` and `i+1` (as the dict lookups
confirm), not an out-of-range index. -/
theorem seam_closed (cosdeg sindeg : ℚ → ℚ) (diameter height element_size : ℚ)
    (h3 : 3 ≤ circCount diameter element_size)
    (h1 : 1 ≤ vertCount height element_size) :
    ∃ elist,
      elemList (nodesOf cosdeg sindeg diameter height element_size)
        (vertCount height element_size) (circCount diameter element_size) = some elist ∧
      ∀ i < vertCount height element_size,
        elist[i * circCount diameter element_size +
            (circCount diameter element_size - 1)]? =
          some { id := i * circCount diameter element_size +
                   (circCount diameter element_size - 1) + 1,
                 n1 := i * circCount diameter element_size +
                   (circCount diameter element_size - 1) + 1,
                 n2 := i * circCount diameter element_size + 0 + 1,
                 n3 := (i + 1) * circCount diameter element_size + 0 + 1,
                 n4 := (i + 1) * circCount diameter element_size +
                   (circCount diameter element_size - 1) + 1 } ∧
        dictGet (nodesOf cosdeg sindeg diameter height element_size) i 0 =
          some (i * circCount diameter element_size + 0 + 1) ∧
        dictGet (nodesOf cosdeg sindeg diameter height element_size) (i + 1) 0 =
          some ((i + 1) * circCount diameter element_size + 0 + 1) := by
  set c := circCount diameter element_size with hc_def
  set nv := vertCount height element_size with hnv_def
  have hc : 0 < c := by omega
  have hring : ringCount height element_size = nv + 1 := ringCount_eq _ _ (by omega)
  refine ⟨_, elemList_success _ _ _ _ _, ?_⟩
  intro i hi
  have hij : c - 1 < c := by omega
  have hk : i * c + (c - 1) < nv * c := encode_lt i (c - 1) nv c hi hij
  have hchar := elemsClosed_getElem? nv c (i * c + (c - 1)) hc hk
  rw [encode_div i (c - 1) c hc hij, encode_mod i (c - 1) c hij] at hchar
  refine ⟨?_, ?_, ?_⟩
  · rw [hchar]
    have hcc : c - 1 + 1 = c := by omega
    simp only [closedElem, hcc, Nat.mod_self]
  · rw [nodesOf]
    exact dictGet_nodeList cosdeg sindeg (diameter / 2) element_size _ c i 0 hc
      (by rw [hring]; omega) hc
  · rw [nodesOf]
    exact dictGet_nodeList cosdeg sindeg (diameter / 2) element_size _ c (i + 1) 0 hc
      (by rw [hring]; omega) hc

theorem seam_closed_witness :
    3 ≤ circCount 120 6 ∧ 1 ≤ vertCount 270 6 ∧
      ∃ elist,
        elemList (nodesOf (fun _ => 1) (fun _ => 0) 120 270 6)
          (vertCount 270 6) (circCount 120 6) = some elist ∧
        ∀ i < vertCount 270 6,
          elist[i * circCount 120 6 + (circCount 120 6 - 1)]? =
            some { id := i * circCount 120 6 + (circCount 120 6 - 1) + 1,
                   n1 := i * circCount 120 6 + (circCount 120 6 - 1) + 1,
                   n2 := i * circCount 120 6 + 0 + 1,
                   n3 := (i + 1) * circCount 120 6 + 0 + 1,
                   n4 := (i + 1) * circCount 120 6 + (circCount 120 6 - 1) + 1 } ∧
          dictGet (nodesOf (fun _ => 1) (fun _ => 0) 120 270 6) i 0 =
            some (i * circCount 120 6 + 0 + 1) ∧
          dictGet (nodesOf (fun _ => 1) (fun _ => 0) 120 270 6) (i + 1) 0 =
            some ((i + 1) * circCount 120 6 + 0 + 1) :=
  ⟨by rw [circCount_main]; omega, by rw [vertCount_main]; omega,
    seam_closed (fun _ => 1) (fun _ => 0) 120 270 6
      (by rw [circCount_main]; omega) (by rw [vertCount_main]; omega)⟩

/-- C7: for the concrete input diameter 120, height 270, element size 6
(with any trigonometry oracle that is exact at angle 0, as `np.cos`/`np.sin`
are), the generator derives `circumferentialCount = 62` and
`verticalCount = 45`, hence exactly 2852 nodes/coordinates and 2790
elements, and node 1 is emitted at coordinates `(60.000, 0.000, 0.000)`. -/
theorem concrete_example (cosdeg sindeg : ℚ → ℚ)
    (hcos : cosdeg 0 = 1) (hsin : sindeg 0 = 0) :
    circCount 120 6 = 62 ∧ vertCount 270 6 = 45 ∧
      ∃ out, generate_abaqus_input cosdeg sindeg 120 1.125 270 29000000 6 = some out ∧
        out.node_coordinates.length = 2852 ∧
        elemList (nodesOf cosdeg sindeg 120 270 6) (vertCount 270 6) (circCount 120 6) =
          some (elemsClosed (vertCount 270 6) (circCount 120 6)) ∧
        (elemsClosed (vertCount 270 6) (circCount 120 6)).length = 2790 ∧
        out.node_coordinates.head? = some (60, 0, 0) ∧
        ((nodesOf cosdeg sindeg 120 270 6).head?).map nodeLine =
          some "1, 60.000, 0.000, 0.000" := by
  have hns_len : (nodesOf cosdeg sindeg 120 270 6).length = 2852 := by
    rw [nodesOf, nodeList_length, circCount_main, ringCount_main]
  have h0 : (nodesOf cosdeg sindeg 120 270 6)[0]? =
      some (mkNode cosdeg sindeg ((120 : ℚ) / 2) 6 (circCount 120 6) 0 (0, 0)) := by
    rw [nodesOf]
    have := nodeList_getElem? cosdeg sindeg ((120 : ℚ) / 2) 6
      (ringCount 270 6) (circCount 120 6) 0 (by rw [circCount_main]; omega)
      (by rw [ringCount_main, circCount_main]; omega)
    simpa using this
  have hx : (mkNode cosdeg sindeg ((120 : ℚ) / 2) 6 (circCount 120 6) 0 (0, 0)).x = 60 := by
    simp [mkNode]
    norm_num [hcos]
  have hy : (mkNode cosdeg sindeg ((120 : ℚ) / 2) 6 (circCount 120 6) 0 (0, 0)).y = 0 := by
    simp [mkNode]
    norm_num [hsin]
  have hz : (mkNode cosdeg sindeg ((120 : ℚ) / 2) 6 (circCount 120 6) 0 (0, 0)).z = 0 := by
    simp [mkNode]
  refine ⟨circCount_main, vertCount_main, _, generate_eq _ _ _ _ _ _ _ (by norm_num),
    ?_, elemList_success _ _ _ _ _, ?_, ?_, ?_⟩
  · show ((nodesOf _ _ _ _ _).map _).length = _
    rw [List.length_map, hns_len]
  · rw [elemsClosed, List.length_map, List.enum_length, gridPairs_length,
      vertCount_main, circCount_main]
  · show ((nodesOf _ _ _ _ _).map _).head? = _
    rw [List.head?_eq_getElem?, List.getElem?_map, h0, Option.map_some', hx, hy, hz]
  · rw [List.head?_eq_getElem?, h0, Option.map_some', nodeLine, hx, hy, hz,
      fmt3_sixty, fmt3_zero]
    rfl

theorem concrete_example_witness :
    (fun _ : ℚ => (1 : ℚ)) 0 = 1 ∧ (fun _ : ℚ => (0 : ℚ)) 0 = 0 ∧
      circCount 120 6 = 62 ∧ vertCount 270 6 = 45 ∧
      ∃ out, generate_abaqus_input (fun _ => 1) (fun _ => 0) 120 1.125 270 29000000 6 =
          some out ∧
        out.node_coordinates.length = 2852 ∧
        elemList (nodesOf (fun _ => 1) (fun _ => 0) 120 270 6) (vertCount 270 6)
          (circCount 120 6) = some (elemsClosed (vertCount 270 6) (circCount 120 6)) ∧
        (elemsClosed (vertCount 270 6) (circCount 120 6)).length = 2790 ∧
        out.node_coordinates.head? = some (60, 0, 0) ∧
        ((nodesOf (fun _ => 1) (fun _ => 0) 120 270 6).head?).map nodeLine =
          some "1, 60.000, 0.000, 0.000" :=
  ⟨rfl, rfl, concrete_example (fun _ => 1) (fun _ => 0) rfl rfl⟩

/-! ## Formatting properties for C8 -/

/-- A numeric field rendered with exactly 3 digits after the decimal point. -/
def threeDecimals (s : String) : Prop :=
  ∃ pre frac, s = pre ++ "." ++ frac ∧ frac.length = 3 ∧
    ∀ ch ∈ frac.data, ch ∈ (['0', '1', '2', '3', '4', '5', '6', '7', '8', '9'] : List Char)

theorem digitChar_mem_digits (d : ℕ) :
    digitChar d ∈ (['0', '1', '2', '3', '4', '5', '6', '7', '8', '9'] : List Char) := by
  rw [digitChar]
  split <;> simp

theorem fmt3_threeDecimals (q : ℚ) : threeDecimals (fmt3 q) := by
  refine ⟨(if q < 0 then "-" else "") ++
      natToString ((roundHalfEven (q * 1000)).natAbs / 1000),
    String.mk (paddedDigits 3 ((roundHalfEven (q * 1000)).natAbs % 1000)), rfl, ?_, ?_⟩
  · show (paddedDigits 3 _).length = 3
    rw [paddedDigits, List.length_map, List.length_range]
  · intro ch hch
    rcases List.mem_map.mp hch with ⟨t, ht, rfl⟩
    exact digitChar_mem_digits _

/-- C8: for every valid input the emitted text is exactly the fixed block
sequence of §6 — header lines, node lines, the `*Element, type=S4` line,
element lines, then the material/section/assembly/step tail; each node line
renders its three coordinates via `fmt3` with exactly three decimals; the
`*Elastic` data line is the caller-supplied modulus followed by `, 0.3` and
the section line carries the caller-supplied thickness; in particular for
modulus 29000000.0 and thickness 1.125 those lines read `29000000.0, 0.3`
and `…thickness=1.125`. -/
theorem output_format (cosdeg sindeg : ℚ → ℚ)
    (diameter thickness height youngs_modulus element_size : ℚ)
    (h3 : 3 ≤ circCount diameter element_size)
    (h1 : 1 ≤ vertCount height element_size) :
    ∃ out,
      generate_abaqus_input cosdeg sindeg diameter thickness height youngs_modulus
        element_size = some out ∧
      out.inp_content = joinLines (headerLines ++
        (nodesOf cosdeg sindeg diameter height element_size).map nodeLine ++
        ["*Element, type=S4"] ++
        (elemsClosed (vertCount height element_size)
          (circCount diameter element_size)).map elemLine ++
        tailLines thickness youngs_modulus) ∧
      (∀ n ∈ nodesOf cosdeg sindeg diameter height element_size,
        nodeLine n = natToString n.id ++ ", " ++ fmt3 n.x ++ ", " ++ fmt3 n.y ++
          ", " ++ fmt3 n.z ∧
        threeDecimals (fmt3 n.x) ∧ threeDecimals (fmt3 n.y) ∧ threeDecimals (fmt3 n.z)) ∧
      materialLine youngs_modulus = pyFloatRepr youngs_modulus ++ ", 0.3" ∧
      sectionLine thickness =
        "*Shell Section, elset=ALL_ELEMENTS, material=Steel, thickness=" ++
          pyFloatRepr thickness ∧
      materialLine 29000000 = "29000000.0, 0.3" ∧
      sectionLine 1.125 =
        "*Shell Section, elset=ALL_ELEMENTS, material=Steel, thickness=1.125" := by
  have hes : element_size ≠ 0 := by
    intro h0
    rw [h0] at h1
    simp [vertCount, numVert, pyint] at h1
  refine ⟨_, generate_eq _ _ _ _ _ _ _ hes, rfl,
    fun n _ => ⟨rfl, fmt3_threeDecimals _, fmt3_threeDecimals _, fmt3_threeDecimals _⟩,
    rfl, rfl, ?_, ?_⟩
  · rw [materialLine, pyFloatRepr_modulus]
    rfl
  · rw [sectionLine, pyFloatRepr_thickness]
    rfl

theorem output_format_witness :
    3 ≤ circCount 120 6 ∧ 1 ≤ vertCount 270 6 ∧
      ∃ out,
        generate_abaqus_input (fun _ => 1) (fun _ => 0) 120 1.125 270 29000000 6 =
          some out ∧
        out.inp_content = joinLines (headerLines ++
          (nodesOf (fun _ => 1) (fun _ => 0) 120 270 6).map nodeLine ++
          ["*Element, type=S4"] ++
          (elemsClosed (vertCount 270 6) (circCount 120 6)).map elemLine ++
          tailLines 1.125 29000000) ∧
        (∀ n ∈ nodesOf (fun _ => 1) (fun _ => 0) 120 270 6,
          nodeLine n = natToString n.id ++ ", " ++ fmt3 n.x ++ ", " ++ fmt3 n.y ++
            ", " ++ fmt3 n.z ∧
          threeDecimals (fmt3 n.x) ∧ threeDecimals (fmt3 n.y) ∧
            threeDecimals (fmt3 n.z)) ∧
        materialLine 29000000 = pyFloatRepr 29000000 ++ ", 0.3" ∧
        sectionLine 1.125 =
          "*Shell Section, elset=ALL_ELEMENTS, material=Steel, thickness=" ++
            pyFloatRepr 1.125 ∧
        materialLine 29000000 = "29000000.0, 0.3" ∧
        sectionLine 1.125 =
          "*Shell Section, elset=ALL_ELEMENTS, material=Steel, thickness=1.125" :=
  ⟨by rw [circCount_main]; omega, by rw [vertCount_main]; omega,
    output_format (fun _ => 1) (fun _ => 0) 120 1.125 270 29000000 6
      (by rw [circCount_main]; omega) (by rw [vertCount_main]; omega)⟩

/-! ## ASCII vocabulary for C9 -/

/-- Every character of the string is 7-bit ASCII (so UTF-8 encoding is total
and one byte per character). -/
def asciiString (s : String) : Prop := ∀ ch ∈ s.data, ch.toNat < 128

instance (s : String) : Decidable (asciiString s) :=
  inferInstanceAs (Decidable (∀ ch ∈ s.data, ch.toNat < 128))

theorem asciiString_append (s t : String) (hs : asciiString s) (ht : asciiString t) :
    asciiString (s ++ t) := by
  intro ch hch
  rw [String.data_append] at hch
  rcases List.mem_append.mp hch with h | h
  exacts [hs ch h, ht ch h]

theorem digitChar_ascii (d : ℕ) : (digitChar d).toNat < 128 := by
  rw [digitChar]
  split <;> decide

theorem natDigitsGo_succ (fuel n : ℕ) (acc : List Char) :
    natDigitsGo (fuel + 1) n acc =
      if n < 10 then digitChar n :: acc
      else natDigitsGo fuel (n / 10) (digitChar n :: acc) := rfl

theorem natDigitsGo_ascii (fuel : ℕ) :
    ∀ (n : ℕ) (acc : List Char), (∀ ch ∈ acc, ch.toNat < 128) →
      ∀ ch ∈ natDigitsGo fuel n acc, ch.toNat < 128 := by
  induction fuel with
  | zero => exact fun n acc hacc => hacc
  | succ fuel ih =>
    intro n acc hacc
    rw [natDigitsGo_succ]
    have hcons : ∀ ch ∈ digitChar n :: acc, ch.toNat < 128 := by
      intro ch hch
      rcases List.mem_cons.mp hch with rfl | hch2
      exacts [digitChar_ascii n, hacc ch hch2]
    by_cases h : n < 10
    · rw [if_pos h]
      exact hcons
    · rw [if_neg h]
      exact ih _ _ hcons

theorem natToString_ascii (n : ℕ) : asciiString (natToString n) := by
  intro ch hch
  exact natDigitsGo_ascii (n + 1) n [] (by simp) ch hch

theorem intToString_ascii (i : ℤ) : asciiString (intToString i) := by
  rw [intToString]
  split
  · exact asciiString_append _ _ (by decide) (natToString_ascii _)
  · exact natToString_ascii _

theorem paddedDigits_ascii (k m : ℕ) : asciiString (String.mk (paddedDigits k m)) := by
  intro ch hch
  rcases List.mem_map.mp hch with ⟨t, ht, rfl⟩
  exact digitChar_ascii _

theorem signStr_ascii (q : ℚ) : asciiString (if q < 0 then "-" else "") := by
  split <;> decide

theorem fmt3_ascii (q : ℚ) : asciiString (fmt3 q) := by
  refine asciiString_append _ _ (asciiString_append _ _ ?_ ?_) (paddedDigits_ascii _ _)
  · exact asciiString_append _ _ (signStr_ascii q) (natToString_ascii _)
  · decide

theorem pyFloatRepr_ascii (q : ℚ) : asciiString (pyFloatRepr q) := by
  simp only [pyFloatRepr]
  split
  · split
    · refine asciiString_append _ _ ?_ ?_
      · exact asciiString_append _ _ (signStr_ascii q) (natToString_ascii _)
      · decide
    · refine asciiString_append _ _ (asciiString_append _ _ ?_ ?_) (paddedDigits_ascii _ _)
      · exact asciiString_append _ _ (signStr_ascii q) (natToString_ascii _)
      · decide
  · refine asciiString_append _ _ (asciiString_append _ _ (intToString_ascii _) ?_)
      (natToString_ascii _)
    decide

theorem nodeLine_ascii (n : Node) : asciiString (nodeLine n) := by
  refine asciiString_append _ _ (asciiString_append _ _ (asciiString_append _ _
    (asciiString_append _ _ (asciiString_append _ _ (asciiString_append _ _
      (natToString_ascii _) ?_) (fmt3_ascii _)) ?_) (fmt3_ascii _)) ?_) (fmt3_ascii _)
  · decide
  · decide
  · decide

theorem elemLine_ascii (e : Elem) : asciiString (elemLine e) := by
  refine asciiString_append _ _ (asciiString_append _ _ (asciiString_append _ _
    (asciiString_append _ _ (asciiString_append _ _ (asciiString_append _ _
      (asciiString_append _ _ (asciiString_append _ _ (natToString_ascii _) ?_)
        (natToString_ascii _)) ?_) (natToString_ascii _)) ?_)
          (natToString_ascii _)) ?_) (natToString_ascii _)
  · decide
  · decide
  · decide
  · decide

theorem headerLines_ascii : ∀ l ∈ headerLines, asciiString l := by decide

theorem tailLines_ascii (thickness youngs_modulus : ℚ) :
    ∀ l ∈ tailLines thickness youngs_modulus, asciiString l := by
  intro l hl
  simp only [tailLines, List.mem_cons, List.not_mem_nil, or_false] at hl
  rcases hl with rfl | rfl | rfl | rfl | rfl | rfl | rfl | rfl | rfl | rfl | rfl | rfl |
    rfl | rfl | rfl | rfl | rfl
  · decide
  · decide
  · decide
  · decide
  · refine asciiString_append _ _ (pyFloatRepr_ascii _) ?_
    decide
  · decide
  · refine asciiString_append _ _ ?_ (pyFloatRepr_ascii _)
    decide
  · decide
  · decide
  · decide
  · decide
  · decide
  · decide
  · decide
  · decide
  · decide
  · decide

theorem joinLines_ascii (ls : List String) (h : ∀ l ∈ ls, asciiString l) :
    asciiString (joinLines ls) := by
  induction ls with
  | nil => intro ch hch; simp [joinLines] at hch
  | cons l ls ih =>
    rw [joinLines_cons]
    refine asciiString_append _ _ (asciiString_append _ _ (h l (List.mem_cons_self l ls)) ?_)
      (ih fun x hx => h x (List.mem_cons_of_mem l hx))
    decide

/-- C9: whenever the generator succeeds, the returned byte sequence is exactly
the UTF-8 encoding of the returned text, and the text is pure 7-bit ASCII, so
this encoding step cannot fail on the produced vocabulary. -/
theorem bytes_are_utf8 (cosdeg sindeg : ℚ → ℚ)
    (diameter thickness height youngs_modulus element_size : ℚ) (out : GenOut)
    (hg : generate_abaqus_input cosdeg sindeg diameter thickness height youngs_modulus
      element_size = some out) :
    out.byte_data = out.inp_content.toUTF8.data.toList ∧ asciiString out.inp_content := by
  have hes : element_size ≠ 0 := by
    intro h0
    rw [h0, generate_abaqus_input, if_pos rfl] at hg
    cases hg
  rw [generate_eq _ _ _ _ _ _ _ hes] at hg
  have hout : out = genOutOf cosdeg sindeg diameter thickness height youngs_modulus
      element_size := (Option.some_injective _ hg).symm
  rw [hout]
  refine ⟨rfl, ?_⟩
  show asciiString (genTextOf _ _ _ _ _ _ _)
  rw [genTextOf]
  apply joinLines_ascii
  intro l hl
  simp only [List.append_assoc, List.mem_append, List.mem_cons, List.not_mem_nil,
    or_false] at hl
  rcases hl with hl | hl | rfl | hl | hl
  · exact headerLines_ascii l hl
  · rcases List.mem_map.mp hl with ⟨n, _, rfl⟩
    exact nodeLine_ascii n
  · decide
  · rcases List.mem_map.mp hl with ⟨e, _, rfl⟩
    exact elemLine_ascii e
  · exact tailLines_ascii _ _ l hl

theorem bytes_are_utf8_witness :
    ∃ out, generate_abaqus_input (fun _ => 1) (fun _ => 0) 120 1.125 270 29000000 1000 =
        some out ∧
      out.byte_data = out.inp_content.toUTF8.data.toList ∧ asciiString out.inp_content :=
  ⟨_, generate_eq _ _ _ _ _ _ _ (by norm_num),
    bytes_are_utf8 (fun _ => 1) (fun _ => 0) 120 1.125 270 29000000 1000 _
      (generate_eq _ _ _ _ _ _ _ (by norm_num))⟩

end FEA
